import Mathlib

/-!
Verification of the Frontier SDK call-correlation engine and origin-trust
verifier, shallowly embedded from the TypeScript sources (`src/sdk.ts`,
`src/types.ts`, `src/ui-utils/detection.ts`).

The engine state is the `FrontierSDK` class: a numeric per-instance counter
(`requestId`), the key set of the `pendingRequests` map, and whether the
`message` event listener is registered.  Payload / result values carried in
messages are opaque to the engine; a small inductive universe `JSVal` stands
for them, with `Option JSVal` modelling a possibly-`undefined` JavaScript
value.  Settling a pending call (invoking its stored `resolve` / `reject`
closure) is made observable as an emitted `(callId, Outcome)` event.
-/

/-- Opaque JavaScript values that travel in payloads and results.  The engine
never inspects them, it only moves them. -/
inductive JSVal where
  | vstr (s : String)
  | vnat (n : Nat)
  | vbool (b : Bool)
deriving Repr, DecidableEq

/-- Runtime shape of `event.data as SDKResponse` (`src/types.ts`).  Because the
cast is unchecked, `type` may be any string or absent (`none`), and `result` /
`error` may be `undefined` (`none`). -/
structure SDKResponse where
  type : Option String
  requestId : String
  result : Option JSVal
  error : Option String
deriving Repr, DecidableEq

/-- A DOM `MessageEvent` as consumed by `handleMessage`: the transport-level
sender window (`event.source`, windows named by `Nat`), the transport origin
(`event.origin`, present on the event but never read by the code), and the
payload. -/
structure MessageEvent where
  source : Nat
  origin : String
  data : SDKResponse
deriving Repr, DecidableEq

/-- The outcome delivered to a caller when its pending call settles:
`resolve(result)` or `reject(new Error(msg))` (we record the error message).
`new Error(undefined)` has message `""`, hence the `Option.getD ""` at use
sites. -/
inductive Outcome where
  | resolved (v : Option JSVal)
  | rejected (errMsg : String)
deriving Repr, DecidableEq

/-- Outbound wire message (`src/types.ts`, `SDKRequest`). -/
structure SDKRequest where
  type : String
  requestId : String
  payload : Option JSVal
deriving Repr, DecidableEq

/-- The receiver window of a `postMessage` call. -/
inductive PostTarget where
  | parentWindow
deriving Repr, DecidableEq

/-- One `postMessage` emission: receiver window, message, and the
`targetOrigin` argument. -/
structure Sent where
  receiver : PostTarget
  message : SDKRequest
  targetOrigin : String
deriving Repr, DecidableEq

/-- State of one `FrontierSDK` instance: the monotonically increasing counter
`requestId`, the key set of the `pendingRequests` map, and whether the
`message` listener added in the constructor is still registered. -/
structure FrontierSDK where
  requestId : Nat
  pendingRequests : List String
  listening : Bool
deriving Repr, DecidableEq

/-- State of a freshly constructed instance: counter `0`, no pending
requests, listener registered. -/
def FrontierSDK.init : FrontierSDK := ⟨0, [], true⟩

/-- The handler `handleMessage` (`src/sdk.ts`): drop the event unless `event.source` is
`window.parent`; otherwise look the `requestId` up in `pendingRequests` and,
if present, reject when `type === 'error'` else resolve with `result`, then
delete the entry.  Returns the new state and the settlement, if any. -/
def FrontierSDK.handleMessage (parent : Nat) (st : FrontierSDK)
    (event : MessageEvent) : FrontierSDK × Option (String × Outcome) :=
  if event.source ≠ parent then (st, none)
  else
    let response := event.data
    if response.requestId ∈ st.pendingRequests then
      let out : Outcome :=
        if response.type = some "error" then .rejected (response.error.getD "")
        else .resolved response.result
      ({ st with pendingRequests := st.pendingRequests.erase response.requestId },
        some (response.requestId, out))
    else (st, none)

/-- The identifier minted for a call: the template string
`` `${Date.now()}-${this.requestId++}` ``. -/
def genRequestId (now counter : Nat) : String :=
  toString now ++ "-" ++ toString counter

/-- Effect of `Map.set` on the key set: a fresh key is added, an existing key keeps the
map's key set unchanged. -/
def mapSet (k : String) (m : List String) : List String :=
  if k ∈ m then m else m ++ [k]

/-- Everything `request` (`src/sdk.ts`) does, made explicit: the successor
state, the minted identifier, the `postMessage` emission, and the absolute
time at which the armed `setTimeout` will fire. -/
structure RequestResult where
  state : FrontierSDK
  id : String
  sent : Sent
  timerDeadline : Nat
deriving Repr, DecidableEq

/-- The method `request(type, payload)` at current time `now`: mint
`` `${Date.now()}-${this.requestId++}` ``, register the pending entry, post
`{type, requestId, payload}` to `window.parent` with targetOrigin `'*'`, and
arm a 30000 ms timer. -/
def FrontierSDK.request (st : FrontierSDK) (now : Nat) (type : String)
    (payload : Option JSVal) : RequestResult :=
  let requestId := genRequestId now st.requestId
  { state := { st with
      requestId := st.requestId + 1
      pendingRequests := mapSet requestId st.pendingRequests }
    id := requestId
    sent := ⟨.parentWindow, ⟨type, requestId, payload⟩, "*"⟩
    timerDeadline := now + 30000 }

/-- Body of the `setTimeout` callback armed by `request`: if the identifier is
still pending, delete it and reject with `new Error('Request timeout')`. -/
def FrontierSDK.timeoutFire (st : FrontierSDK) (requestId : String) :
    FrontierSDK × Option (String × Outcome) :=
  if requestId ∈ st.pendingRequests then
    ({ st with pendingRequests := st.pendingRequests.erase requestId },
      some (requestId, .rejected "Request timeout"))
  else (st, none)

/-- The method `destroy()` (`src/sdk.ts`): remove the `message` listener and clear the
`pendingRequests` map.  No pending callback is invoked. -/
def FrontierSDK.destroy (st : FrontierSDK) : FrontierSDK :=
  { st with listening := false, pendingRequests := [] }

/-- External events driving one engine instance: delivery of a window
`message` event, the firing of an armed request timer, and a `destroy()`
call. -/
inductive Event where
  | message (ev : MessageEvent)
  | timerFire (id : String)
  | destroyCall
deriving Repr, DecidableEq

/-- One event step.  A `message` event reaches `handleMessage` only while the
listener is registered; armed timers still fire after `destroy()` (it does
not cancel them), but find an empty table. -/
def stepEv (parent : Nat) (st : FrontierSDK) :
    Event → FrontierSDK × Option (String × Outcome)
  | .message ev => if st.listening then st.handleMessage parent ev else (st, none)
  | .timerFire id => st.timeoutFire id
  | .destroyCall => (st.destroy, none)

/-- Run a sequence of events, collecting every settlement emitted. -/
def runEvents (parent : Nat) (st : FrontierSDK) :
    List Event → FrontierSDK × List (String × Outcome)
  | [] => (st, [])
  | e :: es =>
    let r := stepEv parent st e
    let rest := runEvents parent r.1 es
    (rest.1, r.2.toList ++ rest.2)

/-! ## Origin Trust Verifier (`src/ui-utils/detection.ts`)

The repository carries two variants of `isInFrontierApp`.  The first checks
that the context is framed and that the referrer origin (or, as a same-origin
fallback, the parent's `location.origin`) is on the allow-list; the second
merely checks `window.self !== window.top`.  Both are embedded over the same
observable environment. -/

/-- The fixed allow-list `ALLOWED_ORIGINS`. -/
def ALLOWED_ORIGINS : List String :=
  [ "http://localhost:5173"
  , "https://sandbox.wallet.frontiertower.io"
  , "https://alpha.wallet.frontiertower.io"
  , "https://beta.wallet.frontiertower.io"
  , "https://wallet.frontiertower.io" ]

/-- Browser observables read by the detection code: whether
`window.parent === window`, whether `window.self === window.top`, the origin
of `document.referrer` (`none` when the referrer is empty), and the value of
`window.parent.location.origin` (`none` when the cross-origin access
throws). -/
structure DetectEnv where
  parentEqSelf : Bool
  selfEqTop : Bool
  referrerOrigin : Option String
  parentLocationOrigin : Option String
deriving Repr, DecidableEq

/-- First variant of `isInFrontierApp`: not framed → `false`; referrer origin
on the allow-list → `true`; else try the parent's `location.origin` (an
allowed truthy value → `true`); if that access throws, fall back to the
referrer origin's allow-list membership; otherwise `false`. -/
def isInFrontierApp_checked (env : DetectEnv) : Bool :=
  if env.parentEqSelf then false
  else
    let fromReferrer :=
      match env.referrerOrigin with
      | some r => ALLOWED_ORIGINS.contains r
      | none => false
    if fromReferrer then true
    else
      match env.parentLocationOrigin with
      | some o => if o ≠ "" ∧ o ∈ ALLOWED_ORIGINS then true else false
      | none =>
        match env.referrerOrigin with
        | some r => ALLOWED_ORIGINS.contains r
        | none => false

/-- Second variant of `isInFrontierApp`: `window.self !== window.top`. -/
def isInFrontierApp_simple (env : DetectEnv) : Bool :=
  !env.selfEqTop

/-! ## Decimal rendering of `Nat`

`genRequestId` renders two numbers with the template string
`` `${now}-${counter}` ``.  To prove identifiers distinct we relate
`Nat.repr` to a structural digit list, show its characters are decimal digits
(hence never `'-'`), and recover the counter by evaluation. -/

/-- Structural decimal digit list of `n`, most significant digit first. -/
def decDigits (n : Nat) : List Char :=
  if _h : n < 10 then [Nat.digitChar n]
  else decDigits (n / 10) ++ [Nat.digitChar (n % 10)]
termination_by n
decreasing_by exact Nat.div_lt_self (by omega) (by omega)

lemma toDigitsCore_eq_decDigits (fuel : Nat) :
    ∀ (n : Nat) (ds : List Char), n < fuel →
      Nat.toDigitsCore 10 fuel n ds = decDigits n ++ ds := by
  induction fuel with
  | zero => omega
  | succ f ih =>
    intro n ds h
    simp only [Nat.toDigitsCore]
    by_cases h0 : n / 10 = 0
    · have hn : n < 10 := by omega
      rw [decDigits]
      simp [h0, hn, Nat.mod_eq_of_lt hn]
    · have hn : ¬ n < 10 := by omega
      have hlt : n / 10 < f := by omega
      rw [if_neg h0, ih (n / 10) _ hlt]
      conv_rhs => rw [decDigits]
      simp [hn]

lemma toDigits_eq_decDigits (n : Nat) : Nat.toDigits 10 n = decDigits n := by
  rw [Nat.toDigits, toDigitsCore_eq_decDigits (n + 1) n [] (Nat.lt_succ_self n),
    List.append_nil]

lemma repr_data (n : Nat) : (Nat.repr n).data = decDigits n := by
  rw [Nat.repr, toDigits_eq_decDigits]
  rfl

lemma digitChar_facts : ∀ d, d < 10 →
    Nat.digitChar d ≠ '-' ∧ (Nat.digitChar d).toNat - 48 = d := by decide

lemma decDigits_chars (n : Nat) :
    ∀ c ∈ decDigits n, ∃ d, d < 10 ∧ c = Nat.digitChar d := by
  induction n using Nat.strong_induction_on with
  | _ n ih =>
    rw [decDigits]
    split
    · next h =>
      intro c hc
      rw [List.mem_singleton] at hc
      exact ⟨n, h, hc⟩
    · next h =>
      intro c hc
      rcases List.mem_append.mp hc with hc | hc
      · exact ih (n / 10) (Nat.div_lt_self (by omega) (by omega)) c hc
      · rw [List.mem_singleton] at hc
        exact ⟨n % 10, Nat.mod_lt _ (by omega), hc⟩

lemma decDigits_ne_dash (n : Nat) : ∀ c ∈ decDigits n, c ≠ '-' := by
  intro c hc
  obtain ⟨d, hd, rfl⟩ := decDigits_chars n c hc
  exact (digitChar_facts d hd).1

/-- Value of a decimal digit character. -/
def dval (c : Char) : Nat := c.toNat - 48

/-- Evaluate a digit list as a decimal numeral, starting from accumulator
`a`. -/
def evalFrom (a : Nat) (l : List Char) : Nat :=
  l.foldl (fun x c => 10 * x + dval c) a

lemma evalFrom_append (a : Nat) (l1 l2 : List Char) :
    evalFrom a (l1 ++ l2) = evalFrom (evalFrom a l1) l2 := by
  simp [evalFrom, List.foldl_append]

lemma evalFrom_decDigits (n : Nat) :
    ∀ a, evalFrom a (decDigits n) = a * 10 ^ (decDigits n).length + n := by
  induction n using Nat.strong_induction_on with
  | _ n ih =>
    intro a
    rw [decDigits]
    split
    · next h =>
      have hd := (digitChar_facts n h).2
      simp [evalFrom, dval, hd]
      omega
    · next h =>
      have hdiv : n / 10 < n := Nat.div_lt_self (by omega) (by omega)
      have h2 := (digitChar_facts (n % 10) (Nat.mod_lt _ (by omega))).2
      have hsingle : ∀ b : Nat, evalFrom b [(n % 10).digitChar] = 10 * b + n % 10 := by
        intro b
        simp [evalFrom, dval, h2]
      rw [evalFrom_append, hsingle, ih (n / 10) hdiv a,
        List.length_append, List.length_singleton, pow_succ, ← mul_assoc]
      have h3 := Nat.div_add_mod n 10
      generalize a * 10 ^ (decDigits (n / 10)).length = B
      omega

lemma decDigits_inj {m n : Nat} (h : decDigits m = decDigits n) : m = n := by
  have hm := evalFrom_decDigits m 0
  have hn := evalFrom_decDigits n 0
  rw [h] at hm
  simp at hm hn
  omega

lemma append_dash_inj :
    ∀ (d1 : List Char), (∀ c ∈ d1, c ≠ '-') →
    ∀ (d2 : List Char), (∀ c ∈ d2, c ≠ '-') →
    ∀ e1 e2 : List Char, d1 ++ '-' :: e1 = d2 ++ '-' :: e2 →
      d1 = d2 ∧ e1 = e2 := by
  intro d1
  induction d1 with
  | nil =>
    intro _ d2 h2 e1 e2 h
    cases d2 with
    | nil => simpa using h
    | cons c t =>
      exfalso
      simp at h
      exact h2 c (List.mem_cons_self c t) h.1.symm
  | cons c t ih =>
    intro h1 d2 h2 e1 e2 h
    cases d2 with
    | nil =>
      exfalso
      simp at h
      exact h1 c (List.mem_cons_self c t) h.1
    | cons c2 t2 =>
      simp only [List.cons_append, List.cons.injEq] at h
      obtain ⟨rfl, h'⟩ := h
      obtain ⟨ht, he⟩ := ih (fun x hx => h1 x (List.mem_cons_of_mem _ hx)) t2
        (fun x hx => h2 x (List.mem_cons_of_mem _ hx)) e1 e2 h'
      exact ⟨by rw [ht], he⟩

lemma genRequestId_data (t c : Nat) :
    (genRequestId t c).data = decDigits t ++ '-' :: decDigits c := by
  have h1 : (toString t : String) = Nat.repr t := rfl
  have h2 : (toString c : String) = Nat.repr c := rfl
  simp [genRequestId, h1, h2, repr_data]

lemma genRequestId_inj {t1 c1 t2 c2 : Nat}
    (h : genRequestId t1 c1 = genRequestId t2 c2) : t1 = t2 ∧ c1 = c2 := by
  have hd := congrArg String.data h
  rw [genRequestId_data, genRequestId_data] at hd
  obtain ⟨h1, h2⟩ := append_dash_inj _ (decDigits_ne_dash t1) _
    (decDigits_ne_dash t2) _ _ hd
  exact ⟨decDigits_inj h1, decDigits_inj h2⟩

/-! ## Sequential call issuance -/

/-- Issue a batch of calls sequentially on one instance: each element gives
the clock reading, method name and payload of one `request`.  Returns the
final state and the minted identifiers in issue order. -/
def issueCalls (st : FrontierSDK) :
    List (Nat × String × Option JSVal) → FrontierSDK × List String
  | [] => (st, [])
  | (now, ty, p) :: rest =>
    let r := st.request now ty p
    let rs := issueCalls r.state rest
    (rs.1, r.id :: rs.2)

lemma request_state_requestId (st : FrontierSDK) (now : Nat) (ty : String)
    (p : Option JSVal) :
    (st.request now ty p).state.requestId = st.requestId + 1 := rfl

lemma request_id_eq (st : FrontierSDK) (now : Nat) (ty : String)
    (p : Option JSVal) :
    (st.request now ty p).id = genRequestId now st.requestId := rfl

lemma issueCalls_ids (st : FrontierSDK)
    (calls : List (Nat × String × Option JSVal)) :
    ∀ id ∈ (issueCalls st calls).2,
      ∃ t k, st.requestId ≤ k ∧ id = genRequestId t k := by
  induction calls generalizing st with
  | nil => simp [issueCalls]
  | cons hd tl ih =>
    obtain ⟨now, ty, p⟩ := hd
    intro id hid
    simp only [issueCalls] at hid
    rcases List.mem_cons.mp hid with rfl | hid
    · exact ⟨now, st.requestId, Nat.le_refl _, rfl⟩
    · obtain ⟨t, k, hk, rfl⟩ := ih ((st.request now ty p).state) id hid
      rw [request_state_requestId] at hk
      exact ⟨t, k, by omega, rfl⟩

/-- C3: for any sequence of calls issued on one engine instance — the
clock readings being arbitrary, in particular several calls may share one
coarse timestamp — the generated call identifiers are pairwise distinct,
because each identifier combines the timestamp with the per-instance
monotonically increasing counter. -/
theorem c3_sequential_ids_pairwise_distinct (st : FrontierSDK)
    (calls : List (Nat × String × Option JSVal)) :
    ((issueCalls st calls).2).Pairwise (· ≠ ·) := by
  induction calls generalizing st with
  | nil => simp [issueCalls]
  | cons hd tl ih =>
    obtain ⟨now, ty, p⟩ := hd
    simp only [issueCalls]
    rw [List.pairwise_cons]
    refine ⟨?_, ih _⟩
    intro id hid heq
    obtain ⟨t, k, hk, rfl⟩ := issueCalls_ids _ _ id hid
    rw [request_state_requestId] at hk
    rw [request_id_eq] at heq
    have h2 := (genRequestId_inj heq).2
    omega

/-! ## Engine lemmas and claims about message handling -/

/-- Closed-form characterization of `handleMessage`: a settlement happens
exactly when the sender is the parent window and the identifier is pending;
the outcome is `reject` exactly for `type === 'error'`. -/
lemma handleMessage_eq (parent : Nat) (st : FrontierSDK) (ev : MessageEvent) :
    st.handleMessage parent ev =
      if ev.source = parent ∧ ev.data.requestId ∈ st.pendingRequests then
        ({ st with pendingRequests := st.pendingRequests.erase ev.data.requestId },
          some (ev.data.requestId,
            if ev.data.type = some "error" then .rejected (ev.data.error.getD "")
            else .resolved ev.data.result))
      else (st, none) := by
  unfold FrontierSDK.handleMessage
  by_cases h1 : ev.source = parent <;>
    by_cases h2 : ev.data.requestId ∈ st.pendingRequests <;>
      simp [h1, h2]

/-- C1: while a call's identifier is still tracked, delivery of a parent
message bearing that identifier settles the call exactly once — the emitted
settlement is the unique outcome, and the entry is removed — and any second
message with the same identifier afterwards leaves the state unchanged and
emits nothing. -/
theorem c1_pending_settles_once_then_inert (parent : Nat) (st : FrontierSDK)
    (ev : MessageEvent)
    (hN : st.pendingRequests.Nodup)
    (hs : ev.source = parent)
    (hp : ev.data.requestId ∈ st.pendingRequests) :
    (st.handleMessage parent ev).2
      = some (ev.data.requestId,
          if ev.data.type = some "error" then .rejected (ev.data.error.getD "")
          else .resolved ev.data.result) ∧
    ((st.handleMessage parent ev).1).pendingRequests
      = st.pendingRequests.erase ev.data.requestId ∧
    ev.data.requestId ∉ ((st.handleMessage parent ev).1).pendingRequests ∧
    ∀ ev2 : MessageEvent, ev2.data.requestId = ev.data.requestId →
      ((st.handleMessage parent ev).1).handleMessage parent ev2
        = ((st.handleMessage parent ev).1, none) := by
  have hkey := handleMessage_eq parent st ev
  rw [if_pos ⟨hs, hp⟩] at hkey
  rw [hkey]
  refine ⟨rfl, rfl, hN.not_mem_erase, ?_⟩
  intro ev2 h2
  rw [handleMessage_eq]
  rw [if_neg]
  rintro ⟨-, hmem⟩
  rw [h2] at hmem
  exact hN.not_mem_erase hmem

/-- Witness for C1 at a concrete state and message: the call settles with the
carried result, the entry is gone, and a second message with the same
identifier is a no-op. -/
theorem c1_witness :
    (["5-0"] : List String).Nodup ∧
    (FrontierSDK.handleMessage 0 ⟨1, ["5-0"], true⟩
        ⟨0, "https://wallet.frontiertower.io",
          ⟨some "response", "5-0", some (.vstr "v"), none⟩⟩).2
      = some ("5-0", .resolved (some (.vstr "v"))) ∧
    ((FrontierSDK.handleMessage 0 ⟨1, ["5-0"], true⟩
        ⟨0, "https://wallet.frontiertower.io",
          ⟨some "response", "5-0", some (.vstr "v"), none⟩⟩).1).handleMessage 0
        ⟨0, "https://wallet.frontiertower.io",
          ⟨some "response", "5-0", some (.vnat 3), none⟩⟩
      = ((FrontierSDK.handleMessage 0 ⟨1, ["5-0"], true⟩
          ⟨0, "https://wallet.frontiertower.io",
            ⟨some "response", "5-0", some (.vstr "v"), none⟩⟩).1, none) := by
  have h := c1_pending_settles_once_then_inert 0 ⟨1, ["5-0"], true⟩
    ⟨0, "https://wallet.frontiertower.io",
      ⟨some "response", "5-0", some (.vstr "v"), none⟩⟩
    (by decide) rfl (by decide)
  refine ⟨by decide, ?_, h.2.2.2 _ rfl⟩
  rw [h.1]
  decide

/-- Counterexample for C4: a message whose transport origin is not in the
Trusted Origin Set, but whose sender is the parent window, is honored — it
settles the matching pending call and mutates the table — because
`handleMessage` checks only `event.source`, never the origin. -/
theorem c4_counterexample :
    "https://evil.example" ∉ ALLOWED_ORIGINS ∧
    FrontierSDK.handleMessage 0 ⟨1, ["100-0"], true⟩
        ⟨0, "https://evil.example",
          ⟨some "response", "100-0", some (.vstr "x"), none⟩⟩
      = (⟨1, [], true⟩, some ("100-0", .resolved (some (.vstr "x")))) := by
  decide

/-- Amended C4: the inbound filter is sender-identity only.  A non-parent
sender is discarded with no effect on state or result; the decision and the
settlement are independent of the message's origin; and a matching message
from the parent is honored regardless of origin. -/
theorem c4_amended_sender_only_filter (parent : Nat) (st : FrontierSDK)
    (ev : MessageEvent) :
    (ev.source ≠ parent → st.handleMessage parent ev = (st, none)) ∧
    (∀ o : String,
      st.handleMessage parent { ev with origin := o }
        = st.handleMessage parent ev) ∧
    (ev.source = parent → ev.data.requestId ∈ st.pendingRequests →
      (st.handleMessage parent ev).2
        = some (ev.data.requestId,
            if ev.data.type = some "error" then .rejected (ev.data.error.getD "")
            else .resolved ev.data.result)) := by
  refine ⟨?_, ?_, ?_⟩
  · intro h
    rw [handleMessage_eq, if_neg (by tauto)]
  · intro o
    rw [handleMessage_eq, handleMessage_eq]
  · intro h1 h2
    rw [handleMessage_eq, if_pos ⟨h1, h2⟩]

/-- Witness for the amended C4: a concrete non-parent message is dropped. -/
theorem c4_amended_witness :
    FrontierSDK.handleMessage 0 ⟨1, ["a-0"], true⟩
        ⟨7, "https://wallet.frontiertower.io", ⟨none, "a-0", none, none⟩⟩
      = (⟨1, ["a-0"], true⟩, none) :=
  (c4_amended_sender_only_filter 0 ⟨1, ["a-0"], true⟩
    ⟨7, "https://wallet.frontiertower.io", ⟨none, "a-0", none, none⟩⟩).1
    (by decide)

/-- C5: a matching success-kind message settles the call with exactly the
carried result; a matching error-kind message settles it as a failure whose
message is the ancestor-supplied error text verbatim. -/
theorem c5_settled_values_verbatim (parent : Nat) (st : FrontierSDK)
    (ev : MessageEvent)
    (hs : ev.source = parent)
    (hp : ev.data.requestId ∈ st.pendingRequests) :
    (ev.data.type = some "response" →
      (st.handleMessage parent ev).2
        = some (ev.data.requestId, .resolved ev.data.result)) ∧
    (∀ s : String, ev.data.type = some "error" → ev.data.error = some s →
      (st.handleMessage parent ev).2
        = some (ev.data.requestId, .rejected s)) := by
  rw [handleMessage_eq, if_pos ⟨hs, hp⟩]
  constructor
  · intro ht
    simp [ht]
  · intro s ht he
    simp [ht, he]

/-- Witness for C5: `storage:get` answered with result `"v"` settles with
value `"v"`; an error-kind answer settles with the supplied text. -/
theorem c5_witness :
    (FrontierSDK.handleMessage 0 ⟨1, ["9-0"], true⟩
        ⟨0, "https://wallet.frontiertower.io",
          ⟨some "response", "9-0", some (.vstr "v"), none⟩⟩).2
      = some ("9-0", .resolved (some (.vstr "v"))) :=
  (c5_settled_values_verbatim 0 ⟨1, ["9-0"], true⟩
    ⟨0, "https://wallet.frontiertower.io",
      ⟨some "response", "9-0", some (.vstr "v"), none⟩⟩ rfl (by decide)).1 rfl

/-- C10: a matching parent message rejects the call exactly when its
`type` field is the string `'error'`; every other `type` value, a missing
field included, resolves the call with the message's `result` field. -/
theorem c10_reject_iff_kind_error (parent : Nat) (st : FrontierSDK)
    (ev : MessageEvent)
    (hs : ev.source = parent)
    (hp : ev.data.requestId ∈ st.pendingRequests) :
    (st.handleMessage parent ev).2
      = some (ev.data.requestId,
          if ev.data.type = some "error" then .rejected (ev.data.error.getD "")
          else .resolved ev.data.result) ∧
    ((∃ s, (st.handleMessage parent ev).2
        = some (ev.data.requestId, .rejected s)) ↔ ev.data.type = some "error") := by
  rw [handleMessage_eq, if_pos ⟨hs, hp⟩]
  refine ⟨rfl, ?_, ?_⟩
  · rintro ⟨s, hsome⟩
    by_contra hne
    rw [if_neg hne] at hsome
    simp at hsome
  · intro ht
    rw [if_pos ht]
    exact ⟨_, rfl⟩

/-- Witness for C10: a `type` outside the declared alphabet (`"bogus"`) with
an absent `result` field resolves the call with `undefined`. -/
theorem c10_witness :
    (FrontierSDK.handleMessage 0 ⟨1, ["3-0"], true⟩
        ⟨0, "https://wallet.frontiertower.io",
          ⟨some "bogus", "3-0", none, none⟩⟩).2
      = some ("3-0", .resolved none) := by
  have h := (c10_reject_iff_kind_error 0 ⟨1, ["3-0"], true⟩
    ⟨0, "https://wallet.frontiertower.io",
      ⟨some "bogus", "3-0", none, none⟩⟩ rfl (by decide)).1
  rw [h]
  decide

/-! ## Timeout and teardown claims -/

/-- Does an event bear on identifier `id`?  An event that does not — any
delivery for a different identifier, a delivery from a non-parent sender, a
timer for a different call — leaves `id`'s pending entry in place. -/
def touchesId (parent : Nat) (id : String) : Event → Bool
  | .message ev => ev.source == parent && ev.data.requestId == id
  | .timerFire i => i == id
  | .destroyCall => true

lemma stepEv_preserves_id (parent : Nat) (id : String) (st : FrontierSDK)
    (e : Event) (hid : id ∈ st.pendingRequests) (hN : st.pendingRequests.Nodup)
    (ht : touchesId parent id e = false) :
    id ∈ ((stepEv parent st e).1).pendingRequests ∧
      ((stepEv parent st e).1).pendingRequests.Nodup := by
  cases e with
  | message ev =>
    simp only [touchesId, Bool.and_eq_false_iff, beq_eq_false_iff_ne] at ht
    simp only [stepEv]
    by_cases hl : st.listening
    · rw [if_pos hl, handleMessage_eq]
      by_cases hc : ev.source = parent ∧ ev.data.requestId ∈ st.pendingRequests
      · rw [if_pos hc]
        have hne : id ≠ ev.data.requestId := by
          rcases ht with h | h
          · exact absurd hc.1 h
          · exact fun hh => h hh.symm
        exact ⟨(List.mem_erase_of_ne hne).mpr hid, hN.erase _⟩
      · rw [if_neg hc]
        exact ⟨hid, hN⟩
    · rw [if_neg hl]
      exact ⟨hid, hN⟩
  | timerFire i =>
    simp only [touchesId, beq_eq_false_iff_ne] at ht
    simp only [stepEv, FrontierSDK.timeoutFire]
    by_cases hc : i ∈ st.pendingRequests
    · rw [if_pos hc]
      exact ⟨(List.mem_erase_of_ne (fun hh => ht hh.symm)).mpr hid, hN.erase _⟩
    · rw [if_neg hc]
      exact ⟨hid, hN⟩
  | destroyCall => simp [touchesId] at ht

lemma runEvents_preserves_id (parent : Nat) (id : String)
    (evs : List Event) :
    ∀ st : FrontierSDK, id ∈ st.pendingRequests → st.pendingRequests.Nodup →
      (∀ e ∈ evs, touchesId parent id e = false) →
      id ∈ ((runEvents parent st evs).1).pendingRequests ∧
        ((runEvents parent st evs).1).pendingRequests.Nodup := by
  induction evs with
  | nil => exact fun st hid hN _ => ⟨hid, hN⟩
  | cons e es ih =>
    intro st hid hN hall
    have h1 := stepEv_preserves_id parent id st e hid hN
      (hall e (List.mem_cons_self e es))
    have h2 := ih ((stepEv parent st e).1) h1.1 h1.2
      (fun x hx => hall x (List.mem_cons_of_mem e hx))
    simpa [runEvents] using h2

lemma mem_mapSet_self (k : String) (m : List String) : k ∈ mapSet k m := by
  unfold mapSet
  split
  · assumption
  · simp

lemma mapSet_nodup (k : String) (m : List String) (h : m.Nodup) :
    (mapSet k m).Nodup := by
  unfold mapSet
  split
  · exact h
  · next hk => simp [List.nodup_append, h, hk]

/-- C2: a call issued at time `now` arms its deadline at exactly
`now + 30000`; if no event in between settles or clears its identifier, the
timer firing settles the call as a rejection whose message is exactly
`"Request timeout"` and removes the pending entry, and any parent message
bearing that identifier afterwards is silently ignored, leaving the state
unchanged. -/
theorem c2_timeout_rejects_then_inert (parent : Nat) (st : FrontierSDK)
    (now : Nat) (ty : String) (p : Option JSVal) (evs : List Event)
    (hN : st.pendingRequests.Nodup)
    (hq : ∀ e ∈ evs, touchesId parent (st.request now ty p).id e = false) :
    (st.request now ty p).timerDeadline = now + 30000 ∧
    (((runEvents parent (st.request now ty p).state evs).1).timeoutFire
        (st.request now ty p).id).2
      = some ((st.request now ty p).id, .rejected "Request timeout") ∧
    (st.request now ty p).id ∉
      ((((runEvents parent (st.request now ty p).state evs).1).timeoutFire
          (st.request now ty p).id).1).pendingRequests ∧
    ∀ ev : MessageEvent, ev.data.requestId = (st.request now ty p).id →
      ((((runEvents parent (st.request now ty p).state evs).1).timeoutFire
          (st.request now ty p).id).1).handleMessage parent ev
        = (((((runEvents parent (st.request now ty p).state evs).1).timeoutFire
            (st.request now ty p).id).1), none) := by
  have hmem : (st.request now ty p).id ∈ (st.request now ty p).state.pendingRequests :=
    mem_mapSet_self _ _
  have hnd : (st.request now ty p).state.pendingRequests.Nodup := mapSet_nodup _ _ hN
  have hrun := runEvents_preserves_id parent (st.request now ty p).id evs
    (st.request now ty p).state hmem hnd hq
  refine ⟨rfl, ?_, ?_, ?_⟩
  · unfold FrontierSDK.timeoutFire
    rw [if_pos hrun.1]
  · unfold FrontierSDK.timeoutFire
    rw [if_pos hrun.1]
    exact hrun.2.not_mem_erase
  · intro ev hev
    unfold FrontierSDK.timeoutFire
    rw [if_pos hrun.1, handleMessage_eq, if_neg]
    rintro ⟨-, hmem2⟩
    rw [hev] at hmem2
    exact hrun.2.not_mem_erase hmem2

/-- Witness for C2 at a fresh instance: `call("wallet:getBalance")` issued at
time 0 with nothing delivered; the armed deadline is 30000 and the timer
firing rejects with exactly `"Request timeout"`. -/
theorem c2_witness :
    (FrontierSDK.init.request 0 "wallet:getBalance" none).timerDeadline = 30000 ∧
    (((runEvents 0 (FrontierSDK.init.request 0 "wallet:getBalance" none).state []).1).timeoutFire
        (FrontierSDK.init.request 0 "wallet:getBalance" none).id).2
      = some ((FrontierSDK.init.request 0 "wallet:getBalance" none).id,
          .rejected "Request timeout") := by
  have h := c2_timeout_rejects_then_inert 0 FrontierSDK.init 0 "wallet:getBalance"
    none [] (by decide) (by simp)
  exact ⟨h.1, h.2.1⟩

/-- C6: the teardown `destroy()` deregisters the listener and clears the table without
settling anything; from the destroyed state no sequence of events — message
deliveries (matching ones included), timer firings, repeated destroys — ever
emits a settlement or changes the state again. -/
theorem c6_shutdown_silences_engine (parent : Nat) (st : FrontierSDK)
    (evs : List Event) :
    (st.destroy).pendingRequests = [] ∧
    (st.destroy).listening = false ∧
    runEvents parent st.destroy evs = (st.destroy, []) := by
  refine ⟨rfl, rfl, ?_⟩
  induction evs with
  | nil => rfl
  | cons e es ih =>
    have hstep : stepEv parent st.destroy e = (st.destroy, none) := by
      cases e with
      | message ev => simp [stepEv, FrontierSDK.destroy]
      | timerFire id => simp [stepEv, FrontierSDK.timeoutFire, FrontierSDK.destroy]
      | destroyCall => simp [stepEv, FrontierSDK.destroy]
    simp [runEvents, hstep, ih]

/-- C9: every `request` posts its message to the parent window with the
wildcard target `'*'`, from every engine state — the model's `request` never
consults any embedding or trust information, so the send is unconditional. -/
theorem c9_send_unconditional_wildcard (st : FrontierSDK) (now : Nat)
    (ty : String) (p : Option JSVal) :
    (st.request now ty p).sent.targetOrigin = "*" ∧
    (st.request now ty p).sent.receiver = .parentWindow ∧
    (st.request now ty p).sent.message
      = ⟨ty, (st.request now ty p).id, p⟩ :=
  ⟨rfl, rfl, rfl⟩

/-! ## Origin Trust Verifier claims -/

/-- Counterexample for C7: an embedded context whose referring origin is
`https://evil.example` (not in the Trusted Origin Set) for which the check
still returns `true`, because the same-origin fallback can read the parent's
`location.origin` and finds an allow-listed value there. -/
theorem c7_counterexample :
    (⟨false, false, some "https://evil.example",
        some "http://localhost:5173"⟩ : DetectEnv).parentEqSelf = false ∧
    "https://evil.example" ∉ ALLOWED_ORIGINS ∧
    isInFrontierApp_checked
        ⟨false, false, some "https://evil.example", some "http://localhost:5173"⟩
      = true := by
  decide

/-- Amended C7: for every embedded context, an allow-listed referring origin
yields `true`; a referring origin outside the set yields `false` unless the
parent's `location.origin` is directly readable and itself allow-listed, in
which case the check yields `true` regardless of the referrer. -/
theorem c7_amended_referrer_decides_unless_parent_readable (env : DetectEnv)
    (hemb : env.parentEqSelf = false) :
    (∀ r, env.referrerOrigin = some r → r ∈ ALLOWED_ORIGINS →
      isInFrontierApp_checked env = true) ∧
    (∀ r, env.referrerOrigin = some r → r ∉ ALLOWED_ORIGINS →
      (∀ o, env.parentLocationOrigin = some o → o ∉ ALLOWED_ORIGINS) →
      isInFrontierApp_checked env = false) ∧
    (∀ r o, env.referrerOrigin = some r → env.parentLocationOrigin = some o →
      o ∈ ALLOWED_ORIGINS → isInFrontierApp_checked env = true) := by
  refine ⟨?_, ?_, ?_⟩
  · intro r hr hmem
    simp [isInFrontierApp_checked, hemb, hr, hmem]
  · intro r hr hmem hpar
    cases hpo : env.parentLocationOrigin with
    | none => simp [isInFrontierApp_checked, hemb, hr, hmem, hpo]
    | some o =>
      have hno := hpar o hpo
      simp [isInFrontierApp_checked, hemb, hr, hmem, hpo, hno]
  · intro r o hr hpo hmem
    have hne : o ≠ "" := by
      simp only [ALLOWED_ORIGINS, List.mem_cons, List.not_mem_nil, or_false] at hmem
      rcases hmem with rfl | rfl | rfl | rfl | rfl <;> decide
    by_cases hrm : r ∈ ALLOWED_ORIGINS
    · simp [isInFrontierApp_checked, hemb, hr, hrm]
    · simp [isInFrontierApp_checked, hemb, hr, hrm, hpo, hne, hmem]

/-- Witness for the amended C7: embedded, referrer
`https://wallet.frontiertower.io`, cross-origin parent — the check accepts. -/
theorem c7_witness :
    isInFrontierApp_checked
        ⟨false, false, some "https://wallet.frontiertower.io", none⟩ = true :=
  (c7_amended_referrer_decides_unless_parent_readable
      ⟨false, false, some "https://wallet.frontiertower.io", none⟩ rfl).1
    "https://wallet.frontiertower.io" rfl (by decide)

/-- C8: the simple variant of `isInFrontierApp` classifies a context as
embedded exactly when `window.self !== window.top` — the top-most ancestor is
not the context itself — and is entirely independent of how the context
relates to its immediate parent, so a context nested more than one level
below the host is still classified as embedded. -/
theorem c8_embedded_means_top_differs (env : DetectEnv) :
    (isInFrontierApp_simple env = true ↔ env.selfEqTop = false) ∧
    (∀ b : Bool, isInFrontierApp_simple { env with parentEqSelf := b }
      = isInFrontierApp_simple env) := by
  constructor
  · simp [isInFrontierApp_simple]
  · intro b
    rfl
